import Mathlib

/-!
Verification of the vhost-user AF_UNIX transport (lib/vhost/trans_af_unix.c).

The C functions are embedded shallowly as pure Lean functions.  Machine
integers are `Nat` with explicit `% 2 ^ 64` where the C performs wrapping
`uint64_t` arithmetic; C `int` return codes are `Int`.  Results of system
calls (`recvmsg`, `read`, `fstat`, `mmap`, `connect`, `fcntl`, allocation)
are passed in as oracle parameters, so each function is a pure map from its
explicit state plus the environment outcome to its result and new state.
-/

/-- The modulus of 64-bit unsigned arithmetic. -/
def U64 : Nat := 2 ^ 64

/-- Unsigned 64-bit negation: `(uint64_t)(-x)`. -/
def negU64 (x : Nat) : Nat := (U64 - x % U64) % U64

/-- Unsigned 64-bit subtraction `a - b`. -/
def subU64 (a b : Nat) : Nat := (U64 + a % U64 - b % U64) % U64

/-- `a - 1` in wrapping 64-bit arithmetic (so `subOneU64 0 = 2^64 - 1`). -/
def subOneU64 (a : Nat) : Nat := (a % U64 + (U64 - 1)) % U64

/-- `RTE_ALIGN_FLOOR(val, align)` from rte_common.h: `val & ~(align - 1)`.
The bitwise complement of `align - 1` inside 64 bits is numerically
`(2^64 - 1) - ((align - 1) mod 2^64)`. -/
def RTE_ALIGN_FLOOR (val align : Nat) : Nat :=
  Nat.land (val % U64) ((U64 - 1) - subOneU64 align)

/-- `RTE_ALIGN_CEIL(val, align)` from rte_common.h:
`RTE_ALIGN_FLOOR(val + (align - 1), align)` with wrapping addition. -/
def RTE_ALIGN_CEIL (val align : Nat) : Nat :=
  RTE_ALIGN_FLOOR ((val + subOneU64 align) % U64) align

/-- `get_blk_size(fd)`: `fstat` then `st_blksize`; the oracle is `none` when
`fstat` returns -1, in which case the function returns `(uint64_t)-1`. -/
def get_blk_size (fstatRes : Option Nat) : Nat :=
  match fstatRes with
  | none => U64 - 1
  | some blksize => blksize % U64

/-!  ## Framed codec: read_fd_message / read_vhost_message  -/

/-- `read_fd_message(sockfd, buf, buflen, fds, max_fds, fd_num)`.
Oracles: `recvmsgRes` is the `recvmsg` return value, `truncated` is whether
`msg_flags` has `MSG_TRUNC | MSG_CTRUNC` set, and `scmRightsFds` the file
descriptors carried by an `SCM_RIGHTS` control message (empty when none).
`fdsBuf` is the callers `fds` buffer, left untouched on the early returns.
Result: (return value, fds buffer, fd_num). -/
def read_fd_message (recvmsgRes : Int) (truncated : Bool)
    (scmRightsFds : List Int) (max_fds : Nat) (fdsBuf : List Int) :
    Int × List Int × Nat :=
  if recvmsgRes ≤ 0 then
    (recvmsgRes, fdsBuf, 0)
  else if truncated then
    (-1, fdsBuf, 0)
  else
    (recvmsgRes,
     scmRightsFds ++ List.replicate (max_fds - scmRightsFds.length) (-1),
     scmRightsFds.length)

/-- `read_vhost_message(sockfd, msg)`.  The header is read through
`read_fd_message` (first three oracles); `msg_size` is the `size` field the
header announces, `payload_capacity` is `sizeof(msg->payload)`, and
`payloadReadRes` the return value of the payload `read`. -/
def read_vhost_message (recvmsgRes : Int) (truncated : Bool)
    (scmRightsFds : List Int) (max_fds : Nat)
    (msg_size payload_capacity : Nat) (payloadReadRes : Int) : Int :=
  let hdrRes := (read_fd_message recvmsgRes truncated scmRightsFds max_fds []).1
  if hdrRes ≤ 0 then hdrRes
  else if msg_size = 0 then hdrRes
  else if payload_capacity < msg_size then -1
  else if payloadReadRes ≤ 0 then payloadReadRes
  else if payloadReadRes ≠ (msg_size : Int) then -1
  else payloadReadRes

/-!  ## Slave channel  -/

/-- `af_unix_send_slave_req(dev, msg)`.  `need_reply` is the
`VHOST_USER_NEED_REPLY` flag bit, `sendRes` the `send_fd_message` result,
`lock_held` whether `slave_req_lock` is held on entry.
Result: (return value, lock held on exit, lock was touched). -/
def af_unix_send_slave_req (need_reply : Bool) (sendRes : Int)
    (lock_held : Bool) : Int × Bool × Bool :=
  if need_reply then
    (sendRes, if sendRes < 0 then false else true, true)
  else
    (sendRes, lock_held, false)

/-- `af_unix_process_slave_message_reply(dev, msg)`.  `readRes` is the
`read_vhost_message` result on `slave_req_fd`, `reply_request` and
`sent_request` the two `request.slave` codes, `reply_payload_u64` the reply
payload.  Result: (return value, lock held on exit, a read was performed). -/
def af_unix_process_slave_message_reply (need_reply : Bool) (readRes : Int)
    (reply_request sent_request : Nat) (reply_payload_u64 : Nat)
    (lock_held : Bool) : Int × Bool × Bool :=
  if ¬ need_reply then (0, lock_held, false)
  else if readRes < 0 then (-1, false, true)
  else if reply_request ≠ sent_request then (-1, false, true)
  else (if reply_payload_u64 = 0 then 0 else -1, false, true)

/-- `af_unix_set_slave_req_fd(dev, msg)`.  `slave_req_fd` is the stored
value on entry, `msg_fd0` is `msg->fds[0]`.
Result: (return value, stored `slave_req_fd` on exit, fds closed). -/
def af_unix_set_slave_req_fd (slave_req_fd : Int) (msg_fd0 : Int) :
    Int × Int × List Int :=
  if msg_fd0 < 0 then (-1, slave_req_fd, [])
  else (0, msg_fd0, [])

/-!  ## Guest-page index  -/

/-- One entry of the guest-page index (`struct guest_page`). -/
structure guest_page where
  guest_phys_addr : Nat
  host_phys_addr : Nat
  size : Nat

/-- `af_unix_add_one_guest_page(dev, guest_phys_addr, host_phys_addr, size)`.
The capacity-doubling `rte_realloc` of the C array is an allocation detail
with no counterpart on unbounded lists, so the model cannot fail.  The merge
comparison and the size accumulation are wrapping `uint64_t` operations. -/
def af_unix_add_one_guest_page (pages : List guest_page)
    (guest_phys_addr host_phys_addr size : Nat) : List guest_page :=
  match pages.getLast? with
  | some last_page =>
    if host_phys_addr = (last_page.host_phys_addr + last_page.size) % U64 then
      pages.dropLast ++
        [{ last_page with size := (last_page.size + size) % U64 }]
    else
      pages ++ [⟨guest_phys_addr, host_phys_addr, size⟩]
  | none => pages ++ [⟨guest_phys_addr, host_phys_addr, size⟩]

/-- Modelled from the spec: `VHOST_BINARY_SEARCH_THRESH` is defined in the
collaborator header vhost.h, which is not part of this repository; the spec
only says the page array is sorted once the count reaches a binary-search
threshold.  The concrete value is irrelevant to the properties proved. -/
def VHOST_BINARY_SEARCH_THRESH : Nat := 256

/-- Insert into a list sorted by `host_phys_addr`, keeping it sorted. -/
def sortInsert (p : guest_page) : List guest_page → List guest_page
  | [] => [p]
  | q :: rest =>
    if p.host_phys_addr ≤ q.host_phys_addr then p :: q :: rest
    else q :: sortInsert p rest

/-- Modelled from the spec: `guest_page_addrcmp` (the `qsort` comparator)
lives in the collaborator header vhost.h; the spec says the guest-page array
is sorted by `host_phys_addr`.  An insertion sort by that key. -/
def sortGuestPages (pages : List guest_page) : List guest_page :=
  pages.foldr sortInsert []

/-- The `while (reg_size > 0)` loop of `af_unix_add_guest_pages`.  `fuel`
bounds the iteration count; `reg_size` itself is enough fuel whenever
`page_size > 0` since every round consumes `min reg_size page_size ≥ 1`
(with `page_size = 0` the C loop would not terminate either). -/
def add_guest_pages_loop : Nat → List guest_page → Nat → Nat → Nat → Nat →
    (Nat → Nat) → List guest_page
  | 0, pages, _, _, _, _, _ => pages
  | fuel + 1, pages, host_user_addr, guest_phys_addr, reg_size, page_size,
      virt2iova =>
    if reg_size = 0 then pages
    else
      let size := min reg_size page_size
      let host_phys_addr := virt2iova host_user_addr
      add_guest_pages_loop fuel
        (af_unix_add_one_guest_page pages guest_phys_addr host_phys_addr size)
        ((host_user_addr + size) % U64) ((guest_phys_addr + size) % U64)
        (reg_size - size) page_size virt2iova

/-- `af_unix_add_guest_pages(dev, reg, page_size)`.  `virt2iova` is the
oracle for `rte_mem_virt2iova`.  The first slice is shortened so the next
guest physical address is `page_size`-aligned, then the loop walks the rest;
finally the array is sorted once it reaches the binary-search threshold. -/
def af_unix_add_guest_pages (pages : List guest_page)
    (reg_size host_user_addr guest_phys_addr page_size : Nat)
    (virt2iova : Nat → Nat) : List guest_page :=
  let size := min (subU64 page_size
    (Nat.land (guest_phys_addr % U64) (subOneU64 page_size))) reg_size
  let host_phys_addr := virt2iova host_user_addr
  let pages1 := af_unix_add_one_guest_page pages guest_phys_addr
    host_phys_addr size
  let pages2 := add_guest_pages_loop reg_size pages1
    ((host_user_addr + size) % U64) ((guest_phys_addr + size) % U64)
    (reg_size - size) page_size virt2iova
  if VHOST_BINARY_SEARCH_THRESH ≤ pages2.length then sortGuestPages pages2
  else pages2

/-!  ## Memory installer  -/

/-- The fields `af_unix_mmap_region` records into the region on success. -/
structure mem_region_out where
  mmap_addr : Nat
  mmap_size : Nat
  host_user_addr : Nat

/-- `af_unix_mmap_region(dev, region, mmap_offset)`.  `fstatRes` is the
`get_blk_size` oracle, `mmapRes` the `mmap` oracle (`none` = `MAP_FAILED`).
`none` models the -1 return; `some` carries the recorded region fields and
the updated guest-page index (updated only when `dev->async_copy`). -/
def af_unix_mmap_region (async_copy : Bool) (pages : List guest_page)
    (region_size region_guest_phys_addr mmap_offset : Nat)
    (fstatRes : Option Nat) (mmapRes : Option Nat) (virt2iova : Nat → Nat) :
    Option (mem_region_out × List guest_page) :=
  if negU64 region_size ≤ mmap_offset then none
  else
    let alignment := get_blk_size fstatRes
    if alignment = U64 - 1 then none
    else
      let mmap_size := RTE_ALIGN_CEIL ((region_size + mmap_offset) % U64)
        alignment
      if mmap_size = 0 then none
      else
        match mmapRes with
        | none => none
        | some mmap_addr =>
          let host_user_addr := (mmap_addr % U64 + mmap_offset) % U64
          let pages2 :=
            if async_copy then
              af_unix_add_guest_pages pages region_size host_user_addr
                region_guest_phys_addr alignment virt2iova
            else pages
          some (⟨mmap_addr, mmap_size, host_user_addr⟩, pages2)

/-- One region descriptor of a SET_MEM_TABLE payload together with its
per-region syscall oracles. -/
structure region_desc where
  guest_phys_addr : Nat
  memory_size : Nat
  mmap_offset : Nat
  fstatRes : Option Nat
  mmapRes : Option Nat

/-- `af_unix_map_mem_regions(dev, msg)`: map each region in order, failing
as soon as one region fails; after the loop the postcopy handshake
(`af_unix_postcopy_register`, a no-op returning 0 unless postcopy is
listening) is summarised by the `postcopyOk` oracle. -/
def af_unix_map_mem_regions (async_copy : Bool) (virt2iova : Nat → Nat)
    (postcopyOk : Bool) : List region_desc → List guest_page → Int
  | [], _ => if postcopyOk then 0 else -1
  | r :: rest, pages =>
    match af_unix_mmap_region async_copy pages r.memory_size
        r.guest_phys_addr r.mmap_offset r.fstatRes r.mmapRes virt2iova with
    | none => -1
    | some (_, pages2) =>
      af_unix_map_mem_regions async_copy virt2iova postcopyOk rest pages2

/-!  ## Log-base installer  -/

/-- The dirty-log fields of `struct virtio_net`. -/
structure log_state where
  log_addr : Nat
  log_base : Nat
  log_size : Nat

/-- `af_unix_set_log_base(dev, msg)`.  `payload_mmap_size` and
`payload_mmap_offset` come from the message payload, `mmapRes` is the `mmap`
oracle.  Result: (return value, log fields on exit, the message fd was
closed, the previous log mapping was munmapped). -/
def af_unix_set_log_base (st : log_state)
    (payload_mmap_size payload_mmap_offset : Nat) (mmapRes : Option Nat) :
    Int × log_state × Bool × Bool :=
  match mmapRes with
  | none => (-1, st, true, false)
  | some addr =>
    (0,
     ⟨addr % U64, (addr % U64 + payload_mmap_offset) % U64,
      payload_mmap_size⟩,
     true,
     st.log_addr != 0)

/-!  ## Client connect  -/

/-- Linux value of the `O_NONBLOCK` flag. -/
def O_NONBLOCK : Nat := 2048

/-- `vhost_user_connect_nonblock(fd, un, sz)`.  `connectOk` is whether
`connect` returned ≥ 0 or failed with `EISCONN`; `fcntlGetFlags` is the
`F_GETFL` oracle (`none` = failure); `fcntlClearOk` is whether the
`F_SETFL` call clearing `O_NONBLOCK` succeeded. -/
def vhost_user_connect_nonblock (connectOk : Bool)
    (fcntlGetFlags : Option Nat) (fcntlClearOk : Bool) : Int :=
  if ¬ connectOk then -1
  else
    match fcntlGetFlags with
    | none => -2
    | some flags =>
      if Nat.land flags O_NONBLOCK ≠ 0 ∧ ¬ fcntlClearOk then -2
      else 0

/-- The three observable outcomes of `vhost_user_start_client`. -/
inductive client_outcome where
  | installed
  | enqueued
  | closed_and_failed

/-- `vhost_user_start_client(vsocket)`.  `connectRes` is the
`vhost_user_connect_nonblock` result, `reconnect` the endpoint flag,
`mallocOk` the oracle for the `malloc` of the reconnect entry. -/
def vhost_user_start_client (connectRes : Int) (reconnect : Bool)
    (mallocOk : Bool) : Int × client_outcome :=
  if connectRes = 0 then (0, client_outcome.installed)
  else if connectRes = -2 ∨ ¬ reconnect then
    (-1, client_outcome.closed_and_failed)
  else if ¬ mallocOk then (-1, client_outcome.closed_and_failed)
  else (0, client_outcome.enqueued)

/-!  ## Derived notions used by the statements  -/

/-- The host-IOVA ranges of `slices` are pairwise contiguous when started
from host physical address `h`: each slice begins exactly where the
previous one ended (comparison in wrapping 64-bit arithmetic, as in the
merge test of `af_unix_add_one_guest_page`). -/
def contiguousFrom : Nat → List guest_page → Bool
  | _, [] => true
  | h, p :: rest =>
    p.host_phys_addr = h && contiguousFrom ((h + p.size) % U64) rest

/-- Total size of a list of slices. -/
def sumSizes (l : List guest_page) : Nat := (l.map guest_page.size).sum

/-- Insert each slice in order with `af_unix_add_one_guest_page`, as the
region walk of `af_unix_add_guest_pages` does. -/
def insertAll (pages : List guest_page) (slices : List guest_page) :
    List guest_page :=
  slices.foldl
    (fun pgs p =>
      af_unix_add_one_guest_page pgs p.guest_phys_addr p.host_phys_addr
        p.size)
    pages

/-!  ## Claim theorems  -/

theorem U64_pos : 0 < U64 := by
  unfold U64
  positivity

/-- Inserting a run of contiguous slices into a singleton index repeatedly
merges into that single entry, accumulating the sizes (wrapping). -/
theorem insertAll_contig (slices : List guest_page) :
    ∀ g h S, S < U64 → contiguousFrom ((h + S) % U64) slices = true →
      insertAll [⟨g, h, S⟩] slices =
        [⟨g, h, (S + sumSizes slices) % U64⟩] := by
  induction slices with
  | nil =>
    intro g h S hS _
    show ([⟨g, h, S⟩] : List guest_page) =
      [⟨g, h, (S + sumSizes []) % U64⟩]
    have hz : (S + sumSizes ([] : List guest_page)) % U64 = S := by
      show (S + 0) % U64 = S
      rw [Nat.add_zero, Nat.mod_eq_of_lt hS]
    rw [hz]
  | cons p rest ih =>
    intro g h S hS hc
    simp only [contiguousFrom, Bool.and_eq_true, decide_eq_true_eq] at hc
    obtain ⟨hp, hrest⟩ := hc
    have step : af_unix_add_one_guest_page [⟨g, h, S⟩] p.guest_phys_addr
        p.host_phys_addr p.size = [⟨g, h, (S + p.size) % U64⟩] := by
      show (if p.host_phys_addr = (h + S) % U64 then
          ([⟨g, h, S⟩] : List guest_page).dropLast ++
            [⟨g, h, (S + p.size) % U64⟩]
        else [⟨g, h, S⟩] ++ [⟨p.guest_phys_addr, p.host_phys_addr, p.size⟩])
        = [⟨g, h, (S + p.size) % U64⟩]
      rw [if_pos hp]
      rfl
    have unfold_one : insertAll [⟨g, h, S⟩] (p :: rest) =
        insertAll [⟨g, h, (S + p.size) % U64⟩] rest := by
      show insertAll (af_unix_add_one_guest_page [⟨g, h, S⟩]
        p.guest_phys_addr p.host_phys_addr p.size) rest = _
      rw [step]
    have hmod : ((h + S) % U64 + p.size) % U64 =
        (h + (S + p.size) % U64) % U64 := by
      rw [Nat.mod_add_mod, Nat.add_mod_mod, Nat.add_assoc]
    have hrest2 : contiguousFrom ((h + (S + p.size) % U64) % U64) rest =
        true := by
      rw [← hmod]
      exact hrest
    rw [unfold_one, ih g h ((S + p.size) % U64)
      (Nat.mod_lt _ U64_pos) hrest2]
    have hsum : sumSizes (p :: rest) = p.size + sumSizes rest := rfl
    have hsz : ((S + p.size) % U64 + sumSizes rest) % U64 =
        (S + sumSizes (p :: rest)) % U64 := by
      rw [Nat.mod_add_mod, hsum, Nat.add_assoc]
    rw [hsz]

/-- C2: `af_unix_add_one_guest_page` on a non-empty index extends the last
entry in place, adding no new entry, exactly when the inserted slice starts
where the last entry ends (`host_phys_addr = last.host_phys_addr +
last.size`), and appends a new entry otherwise; consequently inserting a
non-empty run of pairwise-contiguous slices into an empty index yields
exactly one entry whose size is the sum of the slice sizes. -/
theorem af_unix_add_one_guest_page_spec
    (ps : List guest_page) (lastp : guest_page) (g h s : Nat)
    (slices : List guest_page) (g0 h0 s0 : Nat)
    (hcontig : contiguousFrom ((h0 + s0) % U64) slices = true)
    (htotal : s0 + sumSizes slices < U64) :
    (h = (lastp.host_phys_addr + lastp.size) % U64 →
      af_unix_add_one_guest_page (ps ++ [lastp]) g h s =
        ps ++ [⟨lastp.guest_phys_addr, lastp.host_phys_addr,
                (lastp.size + s) % U64⟩])
  ∧ (h ≠ (lastp.host_phys_addr + lastp.size) % U64 →
      af_unix_add_one_guest_page (ps ++ [lastp]) g h s =
        (ps ++ [lastp]) ++ [⟨g, h, s⟩])
  ∧ insertAll [] (⟨g0, h0, s0⟩ :: slices) =
      [⟨g0, h0, s0 + sumSizes slices⟩] := by
  refine ⟨?_, ?_, ?_⟩
  · intro hm
    unfold af_unix_add_one_guest_page
    rw [List.getLast?_concat]
    show (if h = (lastp.host_phys_addr + lastp.size) % U64 then
        (ps ++ [lastp]).dropLast ++
          [⟨lastp.guest_phys_addr, lastp.host_phys_addr,
            (lastp.size + s) % U64⟩]
      else (ps ++ [lastp]) ++ [⟨g, h, s⟩]) =
      ps ++ [⟨lastp.guest_phys_addr, lastp.host_phys_addr,
        (lastp.size + s) % U64⟩]
    rw [if_pos hm, List.dropLast_concat]
  · intro hm
    unfold af_unix_add_one_guest_page
    rw [List.getLast?_concat]
    show (if h = (lastp.host_phys_addr + lastp.size) % U64 then
        (ps ++ [lastp]).dropLast ++
          [⟨lastp.guest_phys_addr, lastp.host_phys_addr,
            (lastp.size + s) % U64⟩]
      else (ps ++ [lastp]) ++ [⟨g, h, s⟩]) =
      (ps ++ [lastp]) ++ [⟨g, h, s⟩]
    rw [if_neg hm]
  · have first : af_unix_add_one_guest_page [] g0 h0 s0 =
        [⟨g0, h0, s0⟩] := rfl
    have unfold_one : insertAll [] (⟨g0, h0, s0⟩ :: slices) =
        insertAll [⟨g0, h0, s0⟩] slices := by
      show insertAll (af_unix_add_one_guest_page [] g0 h0 s0) slices = _
      rw [first]
    rw [unfold_one,
      insertAll_contig slices g0 h0 s0 (by omega) hcontig,
      Nat.mod_eq_of_lt htotal]

/-- Witness for C2: merging a contiguous slice into a singleton index, and
inserting two contiguous 4 KiB slices into an empty index, which coalesce
into one 8 KiB entry. -/
theorem af_unix_add_one_guest_page_spec_witness :
    af_unix_add_one_guest_page ([] ++ [⟨0, 4096, 4096⟩]) 77 8192 4096 =
      [] ++ [⟨0, 4096, (4096 + 4096) % U64⟩]
  ∧ insertAll [] (⟨0, 4096, 4096⟩ :: [⟨4096, 8192, 4096⟩]) =
      [⟨0, 4096, 4096 + sumSizes [⟨4096, 8192, 4096⟩]⟩] :=
  And.intro
    ((af_unix_add_one_guest_page_spec [] ⟨0, 4096, 4096⟩ 77 8192 4096
        [⟨4096, 8192, 4096⟩] 0 4096 4096 (by decide) (by decide)).1
      (by decide))
    ((af_unix_add_one_guest_page_spec [] ⟨0, 4096, 4096⟩ 77 8192 4096
        [⟨4096, 8192, 4096⟩] 0 4096 4096 (by decide) (by decide)).2.2)

/-- C5: for every SET_LOG_BASE message, `af_unix_set_log_base` closes the
message fd unconditionally; on mmap failure it returns -1 leaving
`log_addr`, `log_base` and `log_size` unchanged; on success it unmaps the
previous log mapping iff one exists (`log_addr` non-zero) and records
`log_addr = mmap_addr`, `log_base = mmap_addr + mmap_offset`,
`log_size = mmap_size` as carried in the payload. -/
theorem af_unix_set_log_base_spec (st : log_state)
    (size off addr : Nat) :
    (af_unix_set_log_base st size off none).1 = -1
  ∧ (af_unix_set_log_base st size off none).2.1 = st
  ∧ (af_unix_set_log_base st size off none).2.2.1 = true
  ∧ (af_unix_set_log_base st size off none).2.2.2 = false
  ∧ (af_unix_set_log_base st size off (some addr)).1 = 0
  ∧ (af_unix_set_log_base st size off (some addr)).2.1.log_addr = addr % U64
  ∧ (af_unix_set_log_base st size off (some addr)).2.1.log_base =
      (addr % U64 + off) % U64
  ∧ (af_unix_set_log_base st size off (some addr)).2.1.log_size = size
  ∧ (af_unix_set_log_base st size off (some addr)).2.2.1 = true
  ∧ ((af_unix_set_log_base st size off (some addr)).2.2.2 = true ↔
      st.log_addr ≠ 0) := by
  refine ⟨rfl, rfl, rfl, rfl, rfl, rfl, rfl, rfl, rfl, ?_⟩
  exact bne_iff_ne

/-- C8: `af_unix_set_slave_req_fd` returns -1 and leaves `slave_req_fd`
unchanged when `msg->fds[0]` is negative; otherwise it stores `msg->fds[0]`
into `slave_req_fd` and returns 0, closing no file descriptor even when a
value was already stored. -/
theorem af_unix_set_slave_req_fd_spec (s fd0 : Int) :
    (fd0 < 0 → af_unix_set_slave_req_fd s fd0 = (-1, s, []))
  ∧ (0 ≤ fd0 → af_unix_set_slave_req_fd s fd0 = (0, fd0, [])) := by
  constructor
  · intro h
    unfold af_unix_set_slave_req_fd
    rw [if_pos h]
  · intro h
    unfold af_unix_set_slave_req_fd
    rw [if_neg (Int.not_lt.mpr h)]

/-- Witness for C8 at a pre-set `slave_req_fd = 5` with a negative and a
valid incoming descriptor. -/
theorem af_unix_set_slave_req_fd_spec_witness :
    af_unix_set_slave_req_fd 5 (-1) = (-1, 5, [])
  ∧ af_unix_set_slave_req_fd 5 4 = (0, 4, []) :=
  ⟨(af_unix_set_slave_req_fd_spec 5 (-1)).1 (by decide),
   (af_unix_set_slave_req_fd_spec 5 4).2 (by decide)⟩

/-- C10: `af_unix_send_slave_req` never leaves the slave-request lock held
after a failed send: starting from a released lock, the lock is held on
return iff `NEED_REPLY` was set and the send succeeded; after a failed send
with `NEED_REPLY` the lock is released; without `NEED_REPLY` the lock is
never touched. -/
theorem af_unix_send_slave_req_spec (nr : Bool) (sendRes : Int)
    (lh : Bool) :
    ((af_unix_send_slave_req nr sendRes false).2.1 = true ↔
      (nr = true ∧ 0 ≤ sendRes))
  ∧ (sendRes < 0 → (af_unix_send_slave_req true sendRes lh).2.1 = false)
  ∧ (af_unix_send_slave_req false sendRes lh = (sendRes, lh, false)) := by
  refine ⟨?_, ?_, ?_⟩
  · cases nr <;> simp [af_unix_send_slave_req]
  · intro h
    simp [af_unix_send_slave_req, h]
  · simp [af_unix_send_slave_req]

/-- Witness for C10: a failed send with `NEED_REPLY` releases the lock. -/
theorem af_unix_send_slave_req_spec_witness :
    (af_unix_send_slave_req true (-1) true).2.1 = false :=
  (af_unix_send_slave_req_spec true (-1) true).2.1 (by decide)

/-- C4: `af_unix_process_slave_message_reply` returns 0 immediately, without
reading and without touching the lock, when `NEED_REPLY` is unset; with
`NEED_REPLY` set it returns -1 when the read fails or the reply request
code differs from the sent one, returns 0 iff the reply payload u64 is 0,
and releases `slave_req_lock` on every one of those paths. -/
theorem af_unix_process_slave_message_reply_spec (readRes : Int)
    (rq sq u64 : Nat) (lh : Bool) :
    af_unix_process_slave_message_reply false readRes rq sq u64 lh =
      (0, lh, false)
  ∧ (readRes < 0 →
      af_unix_process_slave_message_reply true readRes rq sq u64 lh =
        (-1, false, true))
  ∧ (0 ≤ readRes → rq ≠ sq →
      af_unix_process_slave_message_reply true readRes rq sq u64 lh =
        (-1, false, true))
  ∧ (0 ≤ readRes → rq = sq →
      ((af_unix_process_slave_message_reply true readRes rq sq u64 lh).1 = 0
        ↔ u64 = 0)
      ∧ (af_unix_process_slave_message_reply true readRes rq sq u64
          lh).2.1 = false) := by
  refine ⟨?_, ?_, ?_, ?_⟩
  · simp [af_unix_process_slave_message_reply]
  · intro h
    simp [af_unix_process_slave_message_reply, h]
  · intro h hne
    simp [af_unix_process_slave_message_reply, Int.not_lt.mpr h, hne]
  · intro h heq
    constructor
    · by_cases hu : u64 = 0 <;>
        simp [af_unix_process_slave_message_reply, Int.not_lt.mpr h, heq, hu]
    · by_cases hu : u64 = 0 <;>
        simp [af_unix_process_slave_message_reply, Int.not_lt.mpr h, heq, hu]

/-- Witness for C4: a matching reply carrying u64 = 0 yields 0 and releases
the lock; a mismatched code yields -1 and still releases the lock. -/
theorem af_unix_process_slave_message_reply_spec_witness :
    ((af_unix_process_slave_message_reply true 12 3 3 0 true).1 = 0 ↔
      (0 : Nat) = 0)
  ∧ (af_unix_process_slave_message_reply true 12 3 3 0 true).2.1 = false
  ∧ af_unix_process_slave_message_reply true 12 7 3 0 true =
      (-1, false, true) :=
  ⟨((af_unix_process_slave_message_reply_spec 12 3 3 0 true).2.2.2
      (by decide) rfl).1,
   ((af_unix_process_slave_message_reply_spec 12 3 3 0 true).2.2.2
      (by decide) rfl).2,
   (af_unix_process_slave_message_reply_spec 12 7 3 0 true).2.2.1
      (by decide) (by decide)⟩

/-- C6: `vhost_user_start_client` has exactly three outcomes determined by
the non-blocking connect result: 0 installs a Connection and succeeds;
-1 enqueues a reconnect entry and succeeds when `reconnect` is set
(given the entry allocation succeeds) and otherwise closes the fd and
fails; -2 closes the fd and fails regardless of `reconnect`.
`vhost_user_connect_nonblock` only ever produces these three values, and
produces -2 exactly on the fatal `fcntl` paths (cannot read the flags,
cannot clear `O_NONBLOCK`). -/
theorem vhost_user_start_client_spec (reconnect mallocOk clearOk : Bool)
    (connectOk : Bool) (fcntlGetFlags : Option Nat) :
    vhost_user_start_client 0 reconnect mallocOk =
      (0, client_outcome.installed)
  ∧ vhost_user_start_client (-1) true true = (0, client_outcome.enqueued)
  ∧ vhost_user_start_client (-1) false mallocOk =
      (-1, client_outcome.closed_and_failed)
  ∧ vhost_user_start_client (-2) reconnect mallocOk =
      (-1, client_outcome.closed_and_failed)
  ∧ (vhost_user_connect_nonblock connectOk fcntlGetFlags clearOk = 0
    ∨ vhost_user_connect_nonblock connectOk fcntlGetFlags clearOk = -1
    ∨ vhost_user_connect_nonblock connectOk fcntlGetFlags clearOk = -2)
  ∧ vhost_user_connect_nonblock true none clearOk = -2
  ∧ vhost_user_connect_nonblock true (some O_NONBLOCK) false = -2 := by
  refine ⟨?_, ?_, ?_, ?_, ?_, ?_, ?_⟩
  · cases reconnect <;> cases mallocOk <;> rfl
  · rfl
  · cases mallocOk <;> rfl
  · cases reconnect <;> cases mallocOk <;> rfl
  · cases connectOk
    · exact Or.inr (Or.inl rfl)
    · cases fcntlGetFlags with
      | none => exact Or.inr (Or.inr rfl)
      | some flags =>
        by_cases h : Nat.land flags O_NONBLOCK ≠ 0 ∧ ¬ clearOk
        · refine Or.inr (Or.inr ?_)
          show (if Nat.land flags O_NONBLOCK ≠ 0 ∧ ¬ clearOk then (-2 : Int)
            else 0) = -2
          rw [if_pos h]
        · refine Or.inl ?_
          show (if Nat.land flags O_NONBLOCK ≠ 0 ∧ ¬ clearOk then (-2 : Int)
            else 0) = 0
          rw [if_neg h]
  · exact rfl
  · show (if Nat.land O_NONBLOCK O_NONBLOCK ≠ 0 ∧ ¬ false then (-2 : Int)
      else 0) = -2
    rw [if_pos (by decide)]

/-- C7: `read_fd_message` returns 0 when `recvmsg` reports a closed peer
(0 bytes), distinct from errors, which are negative: a negative `recvmsg`
result is passed through and a truncated message
(`MSG_TRUNC | MSG_CTRUNC`) yields -1; otherwise it returns the positive
byte count with `fds[fd_num..max_fds)` initialised to -1. -/
theorem read_fd_message_spec (recvRes : Int) (trunc : Bool)
    (rcv : List Int) (maxf : Nat) (buf : List Int)
    (hlen : rcv.length ≤ maxf) :
    read_fd_message 0 trunc rcv maxf buf = (0, buf, 0)
  ∧ (recvRes < 0 →
      read_fd_message recvRes trunc rcv maxf buf = (recvRes, buf, 0))
  ∧ (0 < recvRes →
      read_fd_message recvRes true rcv maxf buf = (-1, buf, 0))
  ∧ (0 < recvRes →
      (read_fd_message recvRes false rcv maxf buf).1 = recvRes
      ∧ 0 < (read_fd_message recvRes false rcv maxf buf).1
      ∧ (read_fd_message recvRes false rcv maxf buf).2.2 = rcv.length
      ∧ ∀ i, rcv.length ≤ i → i < maxf →
          (read_fd_message recvRes false rcv maxf buf).2.1.getD i 0 = -1) := by
  refine ⟨?_, ?_, ?_, ?_⟩
  · rfl
  · intro h
    unfold read_fd_message
    rw [if_pos (Int.le_of_lt h)]
  · intro h
    unfold read_fd_message
    rw [if_neg (Int.not_le.mpr h)]
    rfl
  · intro h
    have hn : ¬ recvRes ≤ 0 := Int.not_le.mpr h
    unfold read_fd_message
    rw [if_neg hn, if_neg Bool.false_ne_true]
    refine ⟨rfl, h, rfl, ?_⟩
    intro i h1 h2
    rw [List.getD_append_right _ _ _ _ h1,
      List.getD_eq_getElem _ _ (by simp [List.length_replicate]; omega),
      List.getElem_replicate]

/-- Witness for C7 with a 12-byte header read carrying one fd and room for
four descriptors. -/
theorem read_fd_message_spec_witness :
    read_fd_message 0 false [9] 4 [7, 7, 7, 7] = (0, [7, 7, 7, 7], 0)
  ∧ read_fd_message (-3) false [9] 4 [7, 7, 7, 7] = (-3, [7, 7, 7, 7], 0)
  ∧ read_fd_message 12 true [9] 4 [7, 7, 7, 7] = (-1, [7, 7, 7, 7], 0)
  ∧ (read_fd_message 12 false [9] 4 [7, 7, 7, 7]).1 = 12
  ∧ (read_fd_message 12 false [9] 4 [7, 7, 7, 7]).2.2 = 1
  ∧ (read_fd_message 12 false [9] 4 [7, 7, 7, 7]).2.1.getD 3 0 = -1 := by
  have h := read_fd_message_spec (-3) false [9] 4 [7, 7, 7, 7] (by decide)
  have h12 := read_fd_message_spec 12 false [9] 4 [7, 7, 7, 7] (by decide)
  have h12t := read_fd_message_spec 12 true [9] 4 [7, 7, 7, 7] (by decide)
  exact ⟨h.1, h.2.1 (by decide), h12t.2.2.1 (by decide),
    (h12.2.2.2 (by decide)).1,
    (h12.2.2.2 (by decide)).2.2.1,
    (h12.2.2.2 (by decide)).2.2.2 3 (by decide) (by decide)⟩

/-- Counterexample for C3 as stated: with a successful 12-byte header read
announcing a 4-byte payload, a payload `read` that delivers 0 bytes is a
short read (fewer bytes than announced) yet `read_vhost_message` returns 0,
which is not negative. -/
theorem read_vhost_message_short_read_zero_not_negative :
    read_vhost_message 12 false [] 8 4 64 0 = 0
  ∧ ¬ read_vhost_message 12 false [] 8 4 64 0 < 0 := by
  constructor <;> decide

/-- C3 (amended): with a successful header read announcing a non-zero
payload size, `read_vhost_message` returns -1 (malformed) when the size
exceeds `sizeof(msg->payload)`; when the payload read delivers at least one
byte but fewer than announced it returns -1 (malformed); a 0-byte payload
read returns 0 (peer closed) and a negative payload read result is passed
through; otherwise it returns the number of payload bytes read. -/
theorem read_vhost_message_spec (recvRes : Int) (trunc : Bool)
    (rcv : List Int) (maxf msg_size cap : Nat) (pr : Int)
    (hhdr : 0 < (read_fd_message recvRes trunc rcv maxf []).1)
    (hsz : 0 < msg_size) :
    (cap < msg_size →
      read_vhost_message recvRes trunc rcv maxf msg_size cap pr = -1)
  ∧ (msg_size ≤ cap →
      (pr = 0 → read_vhost_message recvRes trunc rcv maxf msg_size cap pr = 0)
      ∧ (pr < 0 →
          read_vhost_message recvRes trunc rcv maxf msg_size cap pr = pr)
      ∧ (0 < pr → pr < (msg_size : Int) →
          read_vhost_message recvRes trunc rcv maxf msg_size cap pr = -1)
      ∧ (pr = (msg_size : Int) →
          read_vhost_message recvRes trunc rcv maxf msg_size cap pr =
            (msg_size : Int))) := by
  have hh : ¬ (read_fd_message recvRes trunc rcv maxf []).1 ≤ 0 :=
    Int.not_le.mpr hhdr
  have hs : ¬ msg_size = 0 := Nat.pos_iff_ne_zero.mp hsz
  have hunf : read_vhost_message recvRes trunc rcv maxf msg_size cap pr =
      if cap < msg_size then -1
      else if pr ≤ 0 then pr
      else if pr ≠ (msg_size : Int) then -1
      else pr := by
    show (if (read_fd_message recvRes trunc rcv maxf []).1 ≤ 0 then
        (read_fd_message recvRes trunc rcv maxf []).1
      else if msg_size = 0 then (read_fd_message recvRes trunc rcv maxf []).1
      else if cap < msg_size then -1
      else if pr ≤ 0 then pr
      else if pr ≠ (msg_size : Int) then -1
      else pr) = _
    rw [if_neg hh, if_neg hs]
  constructor
  · intro hcap
    rw [hunf, if_pos hcap]
  · intro hcap
    have hc : ¬ cap < msg_size := Nat.not_lt.mpr hcap
    refine ⟨?_, ?_, ?_, ?_⟩
    · intro hp
      subst hp
      rw [hunf, if_neg hc]
      rfl
    · intro hp
      rw [hunf, if_neg hc, if_pos (Int.le_of_lt hp)]
    · intro hp1 hp2
      have hnle : ¬ pr ≤ 0 := Int.not_le.mpr hp1
      have hne : pr ≠ (msg_size : Int) := Int.ne_of_lt hp2
      rw [hunf, if_neg hc, if_neg hnle, if_pos hne]
    · intro hp
      have hnle : ¬ pr ≤ 0 := by omega
      have hne : ¬ pr ≠ (msg_size : Int) := fun hx => hx hp
      rw [hunf, if_neg hc, if_neg hnle, if_neg hne]
      exact hp

/-- Witness for C3 (amended): oversized payload, short read, and exact
read, all under a successful 12-byte header read. -/
theorem read_vhost_message_spec_witness :
    read_vhost_message 12 false [] 8 100 64 0 = -1
  ∧ read_vhost_message 12 false [] 8 4 64 2 = -1
  ∧ read_vhost_message 12 false [] 8 4 64 4 = 4 := by
  have hbig := read_vhost_message_spec 12 false [] 8 100 64 0
    (by decide) (by decide)
  have h4 := read_vhost_message_spec 12 false [] 8 4 64 2
    (by decide) (by decide)
  have h4full := read_vhost_message_spec 12 false [] 8 4 64 4
    (by decide) (by decide)
  exact ⟨hbig.1 (by decide),
    (h4.2 (by decide)).2.2.1 (by decide) (by decide),
    (h4full.2 (by decide)).2.2.2 (by decide)⟩

/-- Case analysis of a three-guard option chain: it is `none` exactly when
one of the guards holds, and any `some` it returns carries the final
value. -/
theorem opt_chain_cases {a : Type} (c1 c2 c3 : Prop) [Decidable c1]
    [Decidable c2] [Decidable c3] (v : a) :
    ((if c1 then none else if c2 then none else if c3 then none
        else some v) = (none : Option a) ↔ (c1 ∨ c2 ∨ c3))
  ∧ (∀ w, (if c1 then none else if c2 then none else if c3 then none
      else some v) = some w → w = v) := by
  constructor
  · constructor
    · intro hnone
      by_cases h1 : c1
      · exact Or.inl h1
      · by_cases h2 : c2
        · exact Or.inr (Or.inl h2)
        · by_cases h3 : c3
          · exact Or.inr (Or.inr h3)
          · rw [if_neg h1, if_neg h2, if_neg h3] at hnone
            exact Option.noConfusion hnone
    · intro hdisj
      by_cases h1 : c1
      · rw [if_pos h1]
      · rw [if_neg h1]
        by_cases h2 : c2
        · rw [if_pos h2]
        · rw [if_neg h2]
          rcases hdisj with h | h | h
          · exact absurd h h1
          · exact absurd h h2
          · rw [if_pos h]
  · intro w hsome
    by_cases h1 : c1
    · rw [if_pos h1] at hsome
      exact Option.noConfusion hsome
    · rw [if_neg h1] at hsome
      by_cases h2 : c2
      · rw [if_pos h2] at hsome
        exact Option.noConfusion hsome
      · rw [if_neg h2] at hsome
        by_cases h3 : c3
        · rw [if_pos h3] at hsome
          exact Option.noConfusion hsome
        · rw [if_neg h3] at hsome
          exact (Option.some.inj hsome).symm

/-- Unfolding equation of `af_unix_mmap_region` when `mmap` yields an
address: the `let` bindings and the `match` reduce definitionally. -/
theorem af_unix_mmap_region_eq (async_copy : Bool)
    (pages : List guest_page) (size gpa off : Nat) (fstatRes : Option Nat)
    (addr : Nat) (virt2iova : Nat → Nat) :
    af_unix_mmap_region async_copy pages size gpa off fstatRes (some addr)
        virt2iova =
      if negU64 size ≤ off then none
      else if get_blk_size fstatRes = U64 - 1 then none
      else if RTE_ALIGN_CEIL ((size + off) % U64) (get_blk_size fstatRes) = 0
        then none
      else
        some (⟨addr, RTE_ALIGN_CEIL ((size + off) % U64)
                (get_blk_size fstatRes), (addr % U64 + off) % U64⟩,
          if async_copy then
            af_unix_add_guest_pages pages size ((addr % U64 + off) % U64)
              gpa (get_blk_size fstatRes) virt2iova
          else pages) := rfl

/-- C1: with the `mmap` call itself succeeding, `af_unix_mmap_region` fails
exactly when the overflow guard `mmap_offset >= -size` fires, or `fstat`
cannot supply the block size, or rounding `size + mmap_offset` up to the
block size yields zero; on success it records `mmap_size` as that rounded
value and `host_user_addr = mmap_addr + mmap_offset`.  For non-zero sizes
the overflow guard is exactly wrapping of `mmap_offset + size` in unsigned
64-bit arithmetic. -/
theorem af_unix_mmap_region_spec (async_copy : Bool)
    (pages : List guest_page) (size gpa off : Nat) (fstatRes : Option Nat)
    (addr : Nat) (virt2iova : Nat → Nat)
    (hsize : size < U64)
    (hblk : ∀ b, fstatRes = some b → b < U64 - 1) :
    (af_unix_mmap_region async_copy pages size gpa off fstatRes (some addr)
        virt2iova = none ↔
      (negU64 size ≤ off ∨ fstatRes = none ∨
        RTE_ALIGN_CEIL ((size + off) % U64) (get_blk_size fstatRes) = 0))
  ∧ (∀ out pages2,
      af_unix_mmap_region async_copy pages size gpa off fstatRes (some addr)
          virt2iova = some (out, pages2) →
        out.mmap_addr = addr
        ∧ out.mmap_size =
            RTE_ALIGN_CEIL ((size + off) % U64) (get_blk_size fstatRes)
        ∧ out.host_user_addr = (addr % U64 + off) % U64)
  ∧ (0 < size → (negU64 size ≤ off ↔ U64 ≤ size + off)) := by
  have hthird : 0 < size → (negU64 size ≤ off ↔ U64 ≤ size + off) := by
    intro hpos
    have hU : 0 < U64 := U64_pos
    unfold negU64
    rw [Nat.mod_eq_of_lt hsize,
      Nat.mod_eq_of_lt (show U64 - size < U64 by omega)]
    omega
  have hc2 : get_blk_size fstatRes = U64 - 1 ↔ fstatRes = none := by
    cases fstatRes with
    | none => simp [get_blk_size]
    | some b =>
      have hb : b < U64 - 1 := hblk b rfl
      have hm : b % U64 = b := Nat.mod_eq_of_lt (by omega)
      simp [get_blk_size, hm]
      omega
  rw [af_unix_mmap_region_eq]
  have H := opt_chain_cases (negU64 size ≤ off)
    (get_blk_size fstatRes = U64 - 1)
    (RTE_ALIGN_CEIL ((size + off) % U64) (get_blk_size fstatRes) = 0)
    ((⟨addr, RTE_ALIGN_CEIL ((size + off) % U64) (get_blk_size fstatRes),
        (addr % U64 + off) % U64⟩ : mem_region_out),
     if async_copy then
       af_unix_add_guest_pages pages size ((addr % U64 + off) % U64) gpa
         (get_blk_size fstatRes) virt2iova
     else pages)
  refine ⟨?_, ?_, hthird⟩
  · rw [H.1, hc2]
  · intro out pages2 hsome
    have hv := H.2 (out, pages2) hsome
    injection hv with ho hp
    subst ho
    exact ⟨rfl, rfl, rfl⟩

/-- Witness for C1: a 4 KiB region at offset 0 on a fd whose block size is
512 maps successfully and records the rounded size and the shifted host
address. -/
theorem af_unix_mmap_region_spec_witness :
    (⟨65536, 4096, 65536⟩ : mem_region_out).mmap_addr = 65536
  ∧ (⟨65536, 4096, 65536⟩ : mem_region_out).mmap_size =
      RTE_ALIGN_CEIL ((4096 + 0) % U64) (get_blk_size (some 512))
  ∧ (⟨65536, 4096, 65536⟩ : mem_region_out).host_user_addr =
      (65536 % U64 + 0) % U64 :=
  (af_unix_mmap_region_spec false [] 4096 0 0 (some 512) 65536
      (fun x => x) (by decide) (fun b hb => by cases hb; decide)).2.1
    ⟨65536, 4096, 65536⟩ [] rfl

/-- Every region of size 0 fails the overflow guard: `-0 = 0` in unsigned
arithmetic, so `mmap_offset >= -size` always holds. -/
theorem mmap_region_size_zero (async_copy : Bool) (pages : List guest_page)
    (gpa off : Nat) (fstatRes mmapRes : Option Nat)
    (virt2iova : Nat → Nat) :
    af_unix_mmap_region async_copy pages 0 gpa off fstatRes mmapRes
      virt2iova = none := by
  have hneg : negU64 0 ≤ off := by
    simp [negU64]
  unfold af_unix_mmap_region
  rw [if_pos hneg]

/-- A SET_MEM_TABLE batch containing a zero-size region always fails. -/
theorem map_mem_regions_zero_size (async_copy : Bool)
    (virt2iova : Nat → Nat) (postcopyOk : Bool) (r : region_desc)
    (hz : r.memory_size = 0) :
    ∀ regs, r ∈ regs → ∀ pages,
      af_unix_map_mem_regions async_copy virt2iova postcopyOk regs pages =
        -1 := by
  intro regs
  induction regs with
  | nil => intro hmem; cases hmem
  | cons a rest ih =>
    intro hmem pages
    rcases List.mem_cons.mp hmem with hhead | htail
    · subst hhead
      rw [af_unix_map_mem_regions, hz, mmap_region_size_zero]
    · cases hmm : af_unix_mmap_region async_copy pages a.memory_size
          a.guest_phys_addr a.mmap_offset a.fstatRes a.mmapRes virt2iova with
      | none => rw [af_unix_map_mem_regions, hmm]
      | some v =>
        obtain ⟨o, pages2⟩ := v
        rw [af_unix_map_mem_regions, hmm]
        exact ih htail pages2

/-- C9: for a region descriptor whose size is 0, `af_unix_mmap_region`
returns -1 for every `mmap_offset`, because the degenerate overflow guard
`mmap_offset >= -0` always holds; hence a SET_MEM_TABLE install containing
any zero-length region always fails. -/
theorem af_unix_mmap_region_zero_size_spec (async_copy : Bool)
    (pages : List guest_page) (gpa off : Nat)
    (fstatRes mmapRes : Option Nat) (virt2iova : Nat → Nat)
    (postcopyOk : Bool) (regs : List region_desc) (r : region_desc)
    (hz : r.memory_size = 0) (hr : r ∈ regs) :
    af_unix_mmap_region async_copy pages 0 gpa off fstatRes mmapRes
      virt2iova = none
  ∧ af_unix_map_mem_regions async_copy virt2iova postcopyOk regs pages =
      -1 :=
  ⟨mmap_region_size_zero async_copy pages gpa off fstatRes mmapRes
      virt2iova,
   map_mem_regions_zero_size async_copy virt2iova postcopyOk r hz regs hr
      pages⟩

/-- Witness for C9: a singleton batch whose only region has size 0, with all
syscall oracles succeeding. -/
theorem af_unix_mmap_region_zero_size_spec_witness :
    af_unix_mmap_region false [] 0 5 3 (some 4096) (some 65536)
      (fun x => x) = none
  ∧ af_unix_map_mem_regions false (fun x => x) true
      [⟨5, 0, 3, some 4096, some 65536⟩] [] = -1 :=
  af_unix_mmap_region_zero_size_spec false [] 5 3 (some 4096) (some 65536)
    (fun x => x) true [⟨5, 0, 3, some 4096, some 65536⟩]
    ⟨5, 0, 3, some 4096, some 65536⟩ rfl (List.mem_singleton.mpr rfl)
